import Mathlib

/-!
Verification of the Matchup-Royale data-collection client
(`src/data_collection/api_client.py`).

The file shallowly embeds the two components the specification covers:

* `RateLimiter.wait_if_needed` — modelled as a function on an explicit
  state (the list of recorded request timestamps, rational-valued time),
  together with a trace semantics `RateLimiter.run` for back-to-back
  call sequences.
* `ClashRoyaleAPI._make_request` — modelled as a fold over the sequence
  of per-attempt outcomes delivered by the environment (an HTTP status
  with optional Retry-After header and JSON payload, a transport
  timeout, or a transport error), threading the three lifetime counters
  and recording the back-off sleeps the code performs.
* The endpoint accessors (`get_top_players`, `get_player_info`,
  `get_player_battles`, `get_cards`) — modelled over a Python-value
  type `Json`, with Python's partial operations (`in`, subscription,
  iteration) returning `Except PyErr` so that a propagating exception
  is visible as an `.error` result.
* Tag normalisation (`replace` + `urllib.parse.quote`) and
  `get_api_stats`.
-/

/-! ## Counters of `ClashRoyaleAPI` -/

/-- The three lifetime counters owned by a `ClashRoyaleAPI` instance. -/
structure Counters where
  total_requests : Nat
  failed_requests : Nat
  rate_limit_hits : Nat
deriving DecidableEq, Repr

/-! ## Python/JSON values -/

/-- A Python value as produced by `response.json()`. -/
inductive Json where
  | null : Json
  | bool (b : Bool) : Json
  | num (n : Int) : Json
  | str (s : String) : Json
  | arr (xs : List Json) : Json
  | obj (kvs : List (String × Json)) : Json

mutual

/-- Structural equality of `Json` values (Python `==` on these shapes). -/
def Json.beq : Json → Json → Bool
  | .null, .null => true
  | .bool a, .bool b => a == b
  | .num a, .num b => a == b
  | .str a, .str b => a == b
  | .arr xs, .arr ys => Json.beqList xs ys
  | .obj xs, .obj ys => Json.beqKV xs ys
  | _, _ => false

/-- Elementwise equality of `Json` lists. -/
def Json.beqList : List Json → List Json → Bool
  | [], [] => true
  | x :: xs, y :: ys => Json.beq x y && Json.beqList xs ys
  | _, _ => false

/-- Elementwise equality of key-value lists. -/
def Json.beqKV : List (String × Json) → List (String × Json) → Bool
  | [], [] => true
  | (k, v) :: xs, (k', v') :: ys => k == k' && Json.beq v v' && Json.beqKV xs ys
  | _, _ => false

end

instance : BEq Json := ⟨Json.beq⟩

/-- Python truthiness of a `Json` value (`bool(j)`). -/
def Json.truthy : Json → Bool
  | .null => false
  | .bool b => b
  | .num n => n != 0
  | .str s => s != ""
  | .arr xs => !xs.isEmpty
  | .obj kvs => !kvs.isEmpty

/-- Python truthiness of an `Optional[Dict]` value. -/
def pyTruthy : Option Json → Bool
  | none => false
  | some j => j.truthy

/-- Exceptions the accessor code can raise. -/
inductive PyErr where
  | typeError : PyErr
  | keyError : PyErr
deriving DecidableEq

/-- Python dict lookup on the association-list model of a dict. -/
def lookupKV (k : String) : List (String × Json) → Option Json
  | [] => none
  | (k', v) :: rest => if k' = k then some v else lookupKV k rest

/-- The Python membership test `k in j` for a string key `k`:
defined for dicts (key lookup), lists (element membership) and strings
(substring test); a `TypeError` for the non-container values. -/
def pyContains (k : String) : Json → Except PyErr Bool
  | .obj kvs => .ok (lookupKV k kvs).isSome
  | .arr xs => .ok (xs.contains (.str k))
  | .str s => .ok (decide (k.data <:+: s.data))
  | _ => .error .typeError

/-- The Python subscription `j[k]` for a string key `k`: dict lookup
(`KeyError` when absent), `TypeError` on every other value. -/
def pySubscript (j : Json) (k : String) : Except PyErr Json :=
  match j with
  | .obj kvs =>
    match lookupKV k kvs with
    | some v => .ok v
    | none => .error .keyError
  | _ => .error .typeError

/-- Python iteration over a value: lists yield their elements, strings
their characters, dicts their keys; other values raise `TypeError`. -/
def pyIter : Json → Except PyErr (List Json)
  | .arr xs => .ok xs
  | .str s => .ok (s.data.map fun c => .str c.toString)
  | .obj kvs => .ok (kvs.map fun kv => .str kv.1)
  | _ => .error .typeError

/-! ## `_make_request` (src/data_collection/api_client.py, lines 38–87)

One call is modelled by the list of outcomes the environment delivers,
one per loop iteration: `outcomes.length` plays the role of
`max_retries`, and the outcome at position `i` is what attempt `i`
observes.  Each attempt either terminates the call (`ret = some v`,
the Python `return v`) or falls through to the next iteration
(`ret = none`). -/

/-- What a single attempt of `_make_request` observes from the network:
an HTTP response (status code, optional integer Retry-After header,
parsed body), a `requests.exceptions.Timeout`, or another
`requests.exceptions.RequestException`. -/
inductive Outcome where
  | http (code : Nat) (retryAfter : Option Nat) (payload : Json) : Outcome
  | timeout : Outcome
  | connError : Outcome

/-- The outcomes in which `session.get` returned an HTTP response (so the
line `self.total_requests += 1` is reached). -/
def Outcome.gotResponse : Outcome → Bool
  | .http _ _ _ => true
  | _ => false

/-- Result of processing one attempt. -/
structure AttemptResult where
  counters : Counters
  sleeps : List Nat
  ret : Option (Option Json)

/-- The body of one iteration of the retry loop of `_make_request`:
branch on the outcome exactly as the source does (status 200 / 429 /
404 / 503 / other, then the two `except` clauses).  `attempt` is the
0-based loop index; `sleeps` records the arguments of the `time.sleep`
calls the iteration performs. -/
def processAttempt (attempt : Nat) (o : Outcome) (c : Counters) : AttemptResult :=
  match o with
  | .http code retryAfter payload =>
    let c1 := { c with total_requests := c.total_requests + 1 }
    if code = 200 then
      { counters := c1, sleeps := [], ret := some (some payload) }
    else if code = 429 then
      { counters := { c1 with rate_limit_hits := c1.rate_limit_hits + 1 },
        sleeps := [retryAfter.getD 60], ret := none }
    else if code = 404 then
      { counters := c1, sleeps := [], ret := some none }
    else if code = 503 then
      { counters := c1, sleeps := [300], ret := none }
    else
      { counters := { c1 with failed_requests := c1.failed_requests + 1 },
        sleeps := [], ret := none }
  | .timeout => { counters := c, sleeps := [5 * (attempt + 1)], ret := none }
  | .connError => { counters := c, sleeps := [5 * (attempt + 1)], ret := none }

/-- Result of a whole `_make_request` call: final counters, the sleeps
performed by the retry loop (the rate limiter's own wait is a separate
component), the number of attempts begun, and the returned value. -/
structure ReqResult where
  counters : Counters
  sleeps : List Nat
  attempts : Nat
  result : Option Json

/-- The retry loop of `_make_request` from loop index `i` on.  When the
outcome list is exhausted (all `max_retries` iterations fell through),
the code after the loop runs: `failed_requests += 1; return None`. -/
def runFrom (i : Nat) (outcomes : List Outcome) (c : Counters) : ReqResult :=
  match outcomes with
  | [] => { counters := { c with failed_requests := c.failed_requests + 1 },
            sleeps := [], attempts := 0, result := none }
  | o :: rest =>
    let a := processAttempt i o c
    match a.ret with
    | some v => { counters := a.counters, sleeps := a.sleeps, attempts := 1, result := v }
    | none =>
      let r := runFrom (i + 1) rest a.counters
      { counters := r.counters, sleeps := a.sleeps ++ r.sleeps,
        attempts := r.attempts + 1, result := r.result }

/-- A call to `_make_request` whose `max_retries` iterations observe
`outcomes` (so `outcomes.length` is the retry budget). -/
def make_request (outcomes : List Outcome) (c : Counters) : ReqResult :=
  runFrom 0 outcomes c

/-! ## `get_api_stats` (lines 142–149) -/

/-- The `success_rate` field computed by `get_api_stats`:
`(total_requests - failed_requests) / max(total_requests, 1) * 100`,
over exact rationals (Python computes it in floating point). -/
def success_rate (c : Counters) : ℚ :=
  ((c.total_requests : ℚ) - (c.failed_requests : ℚ))
    / (max c.total_requests 1 : Nat) * 100

/-- The dictionary returned by `get_api_stats`: the three counters and
the derived success rate. -/
def get_api_stats (c : Counters) : Nat × Nat × Nat × ℚ :=
  (c.total_requests, c.failed_requests, c.rate_limit_hits, success_rate c)


/-! ## Endpoint accessors (lines 89–140)

Each accessor calls `_make_request` once and post-processes the
returned `Optional` payload; the post-processing is where Python's
partial operations (`in`, subscription, iteration) live, so it is
modelled in `Except PyErr`. -/

/-- The list comprehension of `get_top_players`, which reads the `tag`
member of each player: evaluated left to right, propagating the first
exception. -/
def extractTags : List Json → Except PyErr (List Json)
  | [] => .ok []
  | player :: rest => do
    let t ← pySubscript player "tag"
    let ts ← extractTags rest
    pure (t :: ts)

/-- Response shaping of `get_top_players` applied to the value returned
by `_make_request`: return the empty list when the payload is falsy or
lacks the `items` key, otherwise extract the `tag` member of every
element of the `items` member. -/
def get_top_players (data : Option Json) : Except PyErr (List Json) :=
  if pyTruthy data = false then .ok []
  else
    match data with
    | none => .ok []
    | some j => do
      let mem ← pyContains "items" j
      if mem then do
        let items ← pySubscript j "items"
        let players ← pyIter items
        extractTags players
      else .ok []

/-- Response shaping of `get_player_info`: the payload is returned
unchanged. -/
def get_player_info (data : Option Json) : Except PyErr (Option Json) :=
  .ok data

/-- Response shaping of `get_player_battles`: the empty list for a
falsy payload, the payload itself when it is a list (the isinstance
test), the empty list otherwise. -/
def get_player_battles (data : Option Json) : Except PyErr (List Json) :=
  if pyTruthy data = false then .ok []
  else
    match data with
    | none => .ok []
    | some (.arr xs) => .ok xs
    | some _ => .ok []

/-- Response shaping of `get_cards`: the empty list when the payload is
falsy or lacks the `items` key, otherwise the `items` member of the
payload. -/
def get_cards (data : Option Json) : Except PyErr Json :=
  if pyTruthy data = false then .ok (.arr [])
  else
    match data with
    | none => .ok (.arr [])
    | some j => do
      let mem ← pyContains "items" j
      if mem then pySubscript j "items" else .ok (.arr [])

/-! ## Tag normalisation (lines 106–123)

The source computes `clean_tag` by replacing every hash character of
`player_tag` with the empty string, re-prefixes a single hash, and
percent-encodes the result with `urllib.parse.quote` and an empty safe
set. -/

/-- The Python replace call of `get_player_info` and
`get_player_battles`: removes every occurrence of the hash character
from `player_tag`. -/
def clean_tag (player_tag : String) : String :=
  ⟨player_tag.data.filter fun c => c != '#'⟩

/-- UTF-8 encoding of one code point, as CPython encodes a `str`
before percent-encoding it. -/
def utf8Bytes (c : Char) : List Nat :=
  let n := c.toNat
  if n < 128 then [n]
  else if n < 2048 then [192 + n / 64, 128 + n % 64]
  else if n < 65536 then [224 + n / 4096, 128 + n / 64 % 64, 128 + n % 64]
  else [240 + n / 262144, 128 + n / 4096 % 64, 128 + n / 64 % 64, 128 + n % 64]

/-- The bytes `urllib.parse.quote` never encodes (ASCII letters,
digits, underscore, dot, dash, tilde); the call sites pass an empty
safe set, so nothing else is exempt. -/
def alwaysSafeByte (b : Nat) : Bool :=
  (65 ≤ b && b ≤ 90) || (97 ≤ b && b ≤ 122) || (48 ≤ b && b ≤ 57)
    || b == 95 || b == 46 || b == 45 || b == 126

/-- Uppercase hexadecimal digit, as `quote` emits. -/
def hexDigit (n : Nat) : Char :=
  if n < 10 then Char.ofNat (48 + n) else Char.ofNat (55 + n)

/-- How `quote` renders one byte: kept verbatim when always-safe,
percent-encoded otherwise. -/
def quoteByte (b : Nat) : String :=
  if alwaysSafeByte b then (Char.ofNat b).toString
  else "%" ++ (hexDigit (b / 16)).toString ++ (hexDigit (b % 16)).toString

/-- The function `urllib.parse.quote` applied with an empty safe set. -/
def pyQuote (s : String) : String :=
  String.join (((s.data.map utf8Bytes).flatten).map quoteByte)

/-- The `encoded_tag` computed identically by `get_player_info` and
`get_player_battles`: strip every `#`, re-prefix one, percent-encode. -/
def encoded_tag (player_tag : String) : String :=
  pyQuote ("#" ++ clean_tag player_tag)

/-- Modelled from the spec: the normalization as the claim words it,
stripping only a LEADING marker character before re-prefixing and
percent-encoding (the code under test instead strips every `#`). -/
def leadingStripEncodedTag (player_tag : String) : String :=
  pyQuote ("#" ++ (match player_tag.data with
                   | '#' :: rest => String.mk rest
                   | _ => player_tag))


/-! ## The rate limiter (lines 7–23)

Time is rational-valued.  `wait_if_needed` is a function of the state
and the real time `now` at which it is entered; it returns the updated
state and the time at which it returns (`now` plus any sleep).  Note
the source appends `now`, captured BEFORE any sleep, to
`self.requests`. -/

/-- State of a `RateLimiter` instance. -/
structure RateLimiter where
  max_rps : Nat
  requests : List ℚ

/-- The pruning comprehension: keep timestamps younger than 1 second. -/
def RateLimiter.prune (now : ℚ) (l : List ℚ) : List ℚ :=
  l.filter fun r => decide (now - r < 1)

/-- One call of `wait_if_needed` entered at time `now`: prune, then if
`max_rps` or more timestamps remain sleep `1 - (now - requests[0])`
when positive, then append `now` (the pre-sleep clock reading).
Returns the new state and the return time.  (When `max_rps = 0` and
the pruned list is empty the source would raise `IndexError`; the
model returns `now`, and every theorem below assumes `1 ≤ max_rps`.) -/
def RateLimiter.wait_if_needed (s : RateLimiter) (now : ℚ) : RateLimiter × ℚ :=
  let pruned := RateLimiter.prune now s.requests
  let ret :=
    if s.max_rps ≤ pruned.length then
      match pruned with
      | [] => now
      | t0 :: _ => if 0 < 1 - (now - t0) then now + (1 - (now - t0)) else now
    else now
  (⟨s.max_rps, pruned ++ [now]⟩, ret)

/-- A back-to-back sequence of calls on one instance by one thread:
`r` is the time the previous call returned (or the start time), and
each list entry `g ≥ 0` is the delay the caller adds before the next
call, which is therefore entered at `r + g`.  Returns the final state
and the list of timestamps recorded (appended) by the calls, in
order. -/
def RateLimiter.run (s : RateLimiter) (r : ℚ) : List ℚ → RateLimiter × List ℚ
  | [] => (s, [])
  | g :: gs =>
    let t := r + g
    let step := RateLimiter.wait_if_needed s t
    let rest := RateLimiter.run step.1 step.2 gs
    (rest.1, t :: rest.2)

/-- Number of timestamps of `l` lying in the trailing 1-second window
`(w - 1, w]`. -/
def winCount (w : ℚ) (l : List ℚ) : Nat :=
  (l.filter fun t => decide (w - 1 < t) && decide (t ≤ w)).length


/-! ## Auxiliary predicates used by the theorems -/

/-- The outcomes whose status the branch of `_make_request` does not
classify (neither 200, 429, 404 nor 503): the final else branch runs. -/
def Outcome.unclassified : Outcome → Bool
  | .http code _ _ => !(code == 200 || code == 429 || code == 404 || code == 503)
  | _ => false

/-- A leaderboard item whose `tag` member can be read. -/
def hasTag : Json → Bool
  | .obj kvs => (lookupKV "tag" kvs).isSome
  | _ => false

/-- Payloads on which the post-processing of `get_top_players` performs
no partial operation: absent or falsy payloads, and dicts whose
`items` member (when present) is a list of dicts each having a `tag`
key. -/
def goodTop : Option Json → Bool
  | none => true
  | some j =>
    if j.truthy = false then true
    else
      match j with
      | .obj kvs =>
        match lookupKV "items" kvs with
        | none => true
        | some (.arr xs) => xs.all hasTag
        | some _ => false
      | _ => false

/-- Payloads on which the post-processing of `get_cards` performs no
partial operation: absent or falsy payloads, and dicts. -/
def goodCards : Option Json → Bool
  | none => true
  | some j =>
    if j.truthy = false then true
    else
      match j with
      | .obj _ => true
      | _ => false

/-- Number of timestamps of `l` the pruning of a call entered at time
`r` would retain (those strictly younger than one second at `r`). -/
def countRecent (r : ℚ) (l : List ℚ) : Nat :=
  (l.filter fun x => decide (r - 1 < x)).length

/-- The invariant threaded through a back-to-back run: `r` is a lower
bound for the entry time of the next call; every recorded timestamp is
at most `r`; at most `max_rps` of them would survive pruning at `r`;
and at most `max_rps + 1` are recorded in total. -/
def RateLimiter.Inv (m : Nat) (s : RateLimiter) (r : ℚ) : Prop :=
  s.max_rps = m ∧ (∀ x ∈ s.requests, x ≤ r) ∧
    countRecent r s.requests ≤ m ∧ s.requests.length ≤ m + 1

/-! ## Theorems for the request loop (claims C2, C3, C4, C5, C9, C10) -/

/-- Helper: an all-timeout run of the retry loop never returns early,
touches no counter during the loop, and adds the single post-loop
`failed_requests` increment. -/
theorem runFrom_all_timeouts (outcomes : List Outcome) :
    ∀ (i : Nat) (c : Counters), (∀ o ∈ outcomes, o = Outcome.timeout) →
      (runFrom i outcomes c).result = none ∧
      (runFrom i outcomes c).counters
        = { c with failed_requests := c.failed_requests + 1 } := by
  induction outcomes with
  | nil => intro i c _; exact ⟨rfl, rfl⟩
  | cons o rest ih =>
    intro i c h
    have ho : o = Outcome.timeout := h o (List.mem_cons_self o rest)
    subst ho
    have hrest : ∀ o ∈ rest, o = Outcome.timeout :=
      fun o hm => h o (List.mem_cons_of_mem _ hm)
    simpa [runFrom, processAttempt] using ih (i + 1) c hrest

/-- C2 counterexample: an attempt that ends in a transport timeout does
not increment `total_requests` (the increment sits after the
`session.get` call, inside the `try` block). -/
theorem timeout_attempt_total_unchanged :
    ¬ ((processAttempt 0 Outcome.timeout ⟨0, 0, 0⟩).counters.total_requests
        = (⟨0, 0, 0⟩ : Counters).total_requests + 1) := by
  decide

/-- C2 (amended): `total_requests` is incremented by exactly 1 for an
attempt precisely when the attempt received an HTTP response (whatever
its status); an attempt that ends in a transport timeout or transport
error leaves `total_requests` unchanged. -/
theorem total_requests_increment_iff_response (i : Nat) (o : Outcome) (c : Counters) :
    (processAttempt i o c).counters.total_requests
      = c.total_requests + (if o.gotResponse then 1 else 0) := by
  cases o with
  | http code ra p =>
    by_cases h200 : code = 200 <;> by_cases h429 : code = 429 <;>
      by_cases h404 : code = 404 <;> by_cases h503 : code = 503 <;>
      simp [processAttempt, Outcome.gotResponse, h200, h429, h404, h503]
  | timeout => simp [processAttempt, Outcome.gotResponse]
  | connError => simp [processAttempt, Outcome.gotResponse]

/-- C3: when every attempt of a `_make_request` call raises a transport
timeout, the call returns `None` and `failed_requests` grows by exactly
1 (the single post-loop increment), not by `max_retries`; no other
counter moves. -/
theorem all_timeouts_single_failure (outcomes : List Outcome) (c : Counters)
    (h : ∀ o ∈ outcomes, o = Outcome.timeout) :
    (make_request outcomes c).result = none ∧
    (make_request outcomes c).counters
      = { c with failed_requests := c.failed_requests + 1 } :=
  runFrom_all_timeouts outcomes 0 c h

/-- Witness for C3 at `max_retries = 3` on a fresh client. -/
theorem all_timeouts_single_failure_witness :
    (make_request (List.replicate 3 Outcome.timeout) ⟨0, 0, 0⟩).result = none ∧
    (make_request (List.replicate 3 Outcome.timeout) ⟨0, 0, 0⟩).counters = ⟨0, 1, 0⟩ :=
  all_timeouts_single_failure (List.replicate 3 Outcome.timeout) ⟨0, 0, 0⟩
    (fun _ ho => List.eq_of_mem_replicate ho)

/-- C4: an attempt whose response has status 429 increments
`rate_limit_hits` by exactly 1, leaves `failed_requests` (and nothing
but `total_requests`) otherwise unchanged, sleeps exactly the
`Retry-After` value before the loop continues — so at least 5 seconds
when the header is 5 — and 60 seconds when the header is absent. -/
theorem rate_limited_attempt_behavior (i : Nat) (c : Counters) (ra : Option Nat) (p : Json) :
    (processAttempt i (.http 429 ra p) c).counters
      = { c with total_requests := c.total_requests + 1,
                 rate_limit_hits := c.rate_limit_hits + 1 } ∧
    (processAttempt i (.http 429 ra p) c).sleeps = [ra.getD 60] ∧
    (processAttempt i (.http 429 ra p) c).ret = none ∧
    (processAttempt i (.http 429 (some 5) p) c).sleeps = [5] ∧
    (processAttempt i (.http 429 none p) c).sleeps = [60] :=
  ⟨rfl, rfl, rfl, rfl, rfl⟩

/-- C5: a call whose first response has status 404 returns `None` after
exactly one attempt, with no retry, no back-off sleep, and no counter
changed other than `total_requests + 1`. -/
theorem notfound_first_attempt_returns_none (rest : List Outcome) (c : Counters)
    (ra : Option Nat) (p : Json) :
    make_request (.http 404 ra p :: rest) c
      = { counters := { c with total_requests := c.total_requests + 1 },
          sleeps := [], attempts := 1, result := none } :=
  rfl

/-- Helper: a run of the retry loop in which every attempt sees an
unclassified HTTP status falls through every iteration, incrementing
`total_requests` and `failed_requests` once per attempt, and then adds
the post-loop `failed_requests` increment. -/
theorem runFrom_all_unclassified (outcomes : List Outcome) :
    ∀ (i : Nat) (c : Counters), (∀ o ∈ outcomes, o.unclassified = true) →
      (runFrom i outcomes c).result = none ∧
      (runFrom i outcomes c).counters
        = { c with total_requests := c.total_requests + outcomes.length,
                   failed_requests := c.failed_requests + outcomes.length + 1 } := by
  induction outcomes with
  | nil => intro i c _; exact ⟨rfl, rfl⟩
  | cons o rest ih =>
    intro i c h
    have ho : o.unclassified = true := h o (List.mem_cons_self o rest)
    have hrest : ∀ o ∈ rest, o.unclassified = true :=
      fun o hm => h o (List.mem_cons_of_mem _ hm)
    match o, ho with
    | .http code ra p, ho =>
      have hco : ¬(code = 200) ∧ ¬(code = 429) ∧ ¬(code = 404) ∧ ¬(code = 503) := by
        simp [Outcome.unclassified] at ho
        omega
      obtain ⟨h200, h429, h404, h503⟩ := hco
      have := ih (i + 1)
        { c with total_requests := c.total_requests + 1,
                 failed_requests := c.failed_requests + 1 } hrest
      refine ⟨?_, ?_⟩
      · simp [runFrom, processAttempt, h200, h429, h404, h503, this.1, this.2]
      · simp [runFrom, processAttempt, h200, h429, h404, h503, this.1, this.2]
        omega

/-- C9: when every attempt of a `_make_request` call receives an
unclassified HTTP status (neither 200, 429, 404 nor 503, e.g. 500),
`failed_requests` grows by exactly `max_retries + 1`: once per failing
attempt and once more on exhaustion. -/
theorem unclassified_failures_count (outcomes : List Outcome) (c : Counters)
    (h : ∀ o ∈ outcomes, o.unclassified = true) :
    (make_request outcomes c).result = none ∧
    (make_request outcomes c).counters.failed_requests
      = c.failed_requests + outcomes.length + 1 := by
  have hrun := runFrom_all_unclassified outcomes 0 c h
  exact ⟨hrun.1, by rw [make_request, hrun.2]⟩

/-- Witness for C9: three straight 500s on a fresh client yield
`failed_requests = 4 = max_retries + 1` with `max_retries = 3`. -/
theorem unclassified_failures_count_witness :
    (make_request (List.replicate 3 (.http 500 none .null)) ⟨0, 0, 0⟩).result = none ∧
    (make_request (List.replicate 3 (.http 500 none .null)) ⟨0, 0, 0⟩).counters.failed_requests
      = 0 + 3 + 1 := by
  have h := unclassified_failures_count (List.replicate 3 (.http 500 none .null)) ⟨0, 0, 0⟩
    (fun o ho => by rw [List.eq_of_mem_replicate ho]; rfl)
  simpa using h

/-- C10: a single `_make_request` whose only attempt raises a transport
timeout leaves a fresh client with `failed_requests = 1` while
`total_requests = 0`, so `failed_requests` exceeds `total_requests` and
`get_api_stats` reports a negative success rate: the rate is not
bounded below by 0. -/
theorem timeout_negative_success_rate :
    (make_request [Outcome.timeout] ⟨0, 0, 0⟩).counters = ⟨0, 1, 0⟩ ∧
    (make_request [Outcome.timeout] ⟨0, 0, 0⟩).counters.total_requests
      < (make_request [Outcome.timeout] ⟨0, 0, 0⟩).counters.failed_requests ∧
    success_rate (make_request [Outcome.timeout] ⟨0, 0, 0⟩).counters < 0 := by
  refine ⟨rfl, by decide, ?_⟩
  have h : (make_request [Outcome.timeout] ⟨0, 0, 0⟩).counters = ⟨0, 1, 0⟩ := rfl
  rw [h]
  norm_num [success_rate]

/-! ## Theorems for `get_api_stats` (claim C8) -/

/-- C8: the success rate of `get_api_stats` equals
`(total_requests - failed_requests) / total_requests * 100` whenever
`total_requests > 0`, and when `total_requests = 0` the divisor
`max(total_requests, 1)` is 1, so the computation divides by zero in no
case. -/
theorem success_rate_spec (c : Counters) :
    (0 < c.total_requests →
      success_rate c
        = ((c.total_requests : ℚ) - (c.failed_requests : ℚ)) / (c.total_requests : ℚ) * 100) ∧
    (c.total_requests = 0 →
      success_rate c = ((c.total_requests : ℚ) - (c.failed_requests : ℚ)) / 1 * 100) ∧
    0 < ((max c.total_requests 1 : Nat) : ℚ) := by
  refine ⟨?_, ?_, ?_⟩
  · intro h
    unfold success_rate
    rw [Nat.max_eq_left h]
  · intro h
    unfold success_rate
    rw [h]
    norm_num
  · have : 1 ≤ max c.total_requests 1 := le_max_right _ _
    exact_mod_cast Nat.lt_of_lt_of_le Nat.zero_lt_one this

/-- Witness for C8 at `total_requests = 2`, `failed_requests = 1`. -/
theorem success_rate_spec_witness :
    0 < (⟨2, 1, 0⟩ : Counters).total_requests ∧ success_rate ⟨2, 1, 0⟩ = 50 := by
  refine ⟨by decide, ?_⟩
  have h := (success_rate_spec ⟨2, 1, 0⟩).1 (by decide)
  rw [h]
  norm_num

/-! ## Theorems for tag normalisation (claim C7) -/

/-- Helper: the replace call of the source removes an occurrence of the
hash character anywhere in the string, not only a leading one. -/
theorem clean_tag_append_hash (s t : String) :
    clean_tag (s ++ "#" ++ t) = clean_tag (s ++ t) := by
  unfold clean_tag
  apply congrArg String.mk
  rw [String.data_append, String.data_append, String.data_append]
  rw [List.filter_append, List.filter_append, List.filter_append]
  simp [List.filter]

/-- C7 counterexample: on the input `"A#B"` the code strips the inner
`#` as well, so it differs from the normalization the claim describes
(stripping only a leading marker before re-prefixing and encoding). -/
theorem encoded_tag_strips_inner_hash :
    encoded_tag "A#B" = "%23AB" ∧
    leadingStripEncodedTag "A#B" = "%23A%23B" ∧
    encoded_tag "A#B" ≠ leadingStripEncodedTag "A#B" := by
  refine ⟨rfl, rfl, ?_⟩
  intro h
  have h1 : encoded_tag "A#B" = "%23AB" := rfl
  have h2 : leadingStripEncodedTag "A#B" = "%23A%23B" := rfl
  rw [h1, h2] at h
  exact absurd h (by decide)

/-- C7 (amended): tag normalization strips EVERY occurrence of `#`
(not only a leading one) before re-prefixing and percent-encoding; in
particular prepending a leading `#` never changes the result, so
`"ABC123"` and `"#ABC123"` normalize to the same URL path segment. -/
theorem encoded_tag_hash_invariant :
    (∀ tag : String, encoded_tag ("#" ++ tag) = encoded_tag tag) ∧
    (∀ s t : String, clean_tag (s ++ "#" ++ t) = clean_tag (s ++ t)) ∧
    encoded_tag "ABC123" = encoded_tag "#ABC123" := by
  refine ⟨?_, clean_tag_append_hash, rfl⟩
  intro tag
  unfold encoded_tag
  have : clean_tag ("#" ++ tag) = clean_tag tag := by
    have h := clean_tag_append_hash "" tag
    simpa using h
  rw [this]


/-! ## Theorems for the endpoint accessors (claim C6) -/

/-- C6 counterexample: a well-formed 200 payload whose `items` list
contains a dict without a `tag` key makes `get_top_players` raise a
`KeyError` (reading the `tag` member in the comprehension), which
propagates to the caller instead of yielding an empty sequence. -/
theorem get_top_players_keyerror :
    get_top_players (some (.obj [("items", .arr [.obj []])])) = .error .keyError := rfl

/-- Helper: `get_player_battles` performs no partial operation, so it
returns `.ok` on every payload. -/
theorem get_player_battles_total (data : Option Json) :
    ∃ l, get_player_battles data = .ok l := by
  unfold get_player_battles
  split
  · exact ⟨[], rfl⟩
  · match data with
    | none => exact ⟨[], rfl⟩
    | some (.arr xs) => exact ⟨xs, rfl⟩
    | some .null => exact ⟨[], rfl⟩
    | some (.bool b) => exact ⟨[], rfl⟩
    | some (.num n) => exact ⟨[], rfl⟩
    | some (.str s) => exact ⟨[], rfl⟩
    | some (.obj kvs) => exact ⟨[], rfl⟩

/-- Helper: extracting the `tag` member succeeds on every element of a
list of dicts that all carry a `tag` key. -/
theorem extractTags_ok (xs : List Json) (h : xs.all hasTag = true) :
    ∃ l, extractTags xs = .ok l := by
  induction xs with
  | nil => exact ⟨[], rfl⟩
  | cons x rest ih =>
    rw [List.all_cons, Bool.and_eq_true] at h
    obtain ⟨l, hl⟩ := ih h.2
    have hx := h.1
    match x, hx with
    | .obj kvs, hx =>
      simp only [hasTag] at hx
      match hv : lookupKV "tag" kvs with
      | none => rw [hv] at hx; simp at hx
      | some v =>
        refine ⟨v :: l, ?_⟩
        simp only [extractTags, pySubscript, hv, hl]
        rfl
    | .null, hx => simp [hasTag] at hx
    | .bool b, hx => simp [hasTag] at hx
    | .num n, hx => simp [hasTag] at hx
    | .str s, hx => simp [hasTag] at hx
    | .arr ys, hx => simp [hasTag] at hx

/-- Helper: on a payload within `goodTop`, `get_top_players` raises
nothing. -/
theorem get_top_players_good (data : Option Json) (hgood : goodTop data = true) :
    ∃ l, get_top_players data = .ok l := by
  match data with
  | none => exact ⟨[], rfl⟩
  | some j =>
    by_cases htj : j.truthy = false
    · exact ⟨[], by unfold get_top_players; rw [if_pos (by simpa [pyTruthy] using htj)]⟩
    · match j with
      | .null => simp [Json.truthy] at htj
      | .bool b => simp [goodTop, htj] at hgood
      | .num n => simp [goodTop, htj] at hgood
      | .str s => simp [goodTop, htj] at hgood
      | .arr xs => simp [goodTop, htj] at hgood
      | .obj kvs =>
        simp only [goodTop] at hgood
        rw [if_neg htj] at hgood
        unfold get_top_players
        rw [if_neg (by simpa [pyTruthy] using htj)]
        match hlk : lookupKV "items" kvs with
        | none =>
          refine ⟨[], ?_⟩
          simp only [pyContains, hlk]
          rfl
        | some v =>
          rw [hlk] at hgood
          match v, hgood with
          | .arr xs, hgood =>
            obtain ⟨l, hl⟩ := extractTags_ok xs hgood
            refine ⟨l, ?_⟩
            simp only [pyContains, pySubscript, pyIter, hlk]
            exact hl
          | .null, hgood => simp at hgood
          | .bool b, hgood => simp at hgood
          | .num n, hgood => simp at hgood
          | .str s, hgood => simp at hgood
          | .obj kvs2, hgood => simp at hgood

/-- Helper: on a payload within `goodCards`, `get_cards` raises
nothing. -/
theorem get_cards_good (data : Option Json) (hgood : goodCards data = true) :
    ∃ v, get_cards data = .ok v := by
  match data with
  | none => exact ⟨.arr [], rfl⟩
  | some j =>
    by_cases htj : j.truthy = false
    · exact ⟨.arr [], by unfold get_cards; rw [if_pos (by simpa [pyTruthy] using htj)]⟩
    · match j with
      | .null => simp [Json.truthy] at htj
      | .bool b => simp [goodCards, htj] at hgood
      | .num n => simp [goodCards, htj] at hgood
      | .str s => simp [goodCards, htj] at hgood
      | .arr xs => simp [goodCards, htj] at hgood
      | .obj kvs =>
        unfold get_cards
        rw [if_neg (by simpa [pyTruthy] using htj)]
        match hlk : lookupKV "items" kvs with
        | none =>
          refine ⟨.arr [], ?_⟩
          simp only [pyContains, hlk]
          rfl
        | some v =>
          refine ⟨v, ?_⟩
          simp only [pyContains, pySubscript, hlk]
          rfl

/-- C6 (amended): no exception propagates from `get_player_info` or
`get_player_battles` for any payload; `get_top_players` and `get_cards`
return the empty sequence when the payload is absent or falsy, and
raise no exception provided the payload is a dict whose `items` member
(when present, and, for `get_top_players`, a list of dicts each
carrying a `tag` key) is well-shaped; a payload outside that shape
(e.g. a 200 body whose `items` list holds a dict without a `tag` key)
makes `get_top_players` raise a `KeyError` that propagates to the
caller. -/
theorem accessors_no_exception_amended (data : Option Json) :
    get_player_info data = .ok data ∧
    (∃ l, get_player_battles data = .ok l) ∧
    (pyTruthy data = false →
      get_top_players data = .ok [] ∧ get_cards data = .ok (.arr [])) ∧
    (goodTop data = true → ∃ l, get_top_players data = .ok l) ∧
    (goodCards data = true → ∃ v, get_cards data = .ok v) := by
  refine ⟨rfl, get_player_battles_total data, ?_,
    get_top_players_good data, get_cards_good data⟩
  intro h
  constructor
  · unfold get_top_players
    rw [if_pos h]
  · unfold get_cards
    rw [if_pos h]

/-- Witness for C6 (amended) on a payload whose `items` list holds one
dict with a `tag` entry, and on the absent payload. -/
theorem accessors_no_exception_amended_witness :
    (goodTop (some (.obj [("items", .arr [.obj [("tag", .str "X")]])])) = true ∧
      ∃ l, get_top_players (some (.obj [("items", .arr [.obj [("tag", .str "X")]])])) = .ok l) ∧
    (pyTruthy none = false ∧ get_top_players none = .ok []) :=
  ⟨⟨rfl, (accessors_no_exception_amended _).2.2.2.1 rfl⟩,
   ⟨rfl, ((accessors_no_exception_amended none).2.2.1 rfl).1⟩⟩

/-! ## Theorems for the rate limiter (claim C1) -/

/-- Helper: filtering with a weaker predicate keeps at least as many
elements. -/
theorem length_filter_mono (l : List ℚ) (p q : ℚ → Bool)
    (h : ∀ x ∈ l, p x = true → q x = true) :
    (l.filter p).length ≤ (l.filter q).length := by
  rw [← List.countP_eq_length_filter, ← List.countP_eq_length_filter]
  exact List.countP_mono_left h

/-- Helper: window counts add over concatenation. -/
theorem winCount_append (w : ℚ) (l1 l2 : List ℚ) :
    winCount w (l1 ++ l2) = winCount w l1 + winCount w l2 := by
  simp [winCount, List.filter_append]

/-- Helper: a window count never exceeds the list length. -/
theorem winCount_le_length (w : ℚ) (l : List ℚ) : winCount w l ≤ l.length :=
  List.length_filter_le _ _

/-- Helper: timestamps beyond the window do not count. -/
theorem winCount_eq_zero_of_gt (w : ℚ) (l : List ℚ) (h : ∀ x ∈ l, w < x) :
    winCount w l = 0 := by
  unfold winCount
  rw [List.filter_eq_nil_iff.mpr ?_]
  · rfl
  · intro x hx
    simp only [Bool.and_eq_true, decide_eq_true_eq, not_and, not_le]
    intro _
    exact h x hx

/-- Helper: pruning at a time not later than the window's right end
removes nothing from the window. -/
theorem winCount_prune (w t : ℚ) (l : List ℚ) (htw : t ≤ w) :
    winCount w (RateLimiter.prune t l) = winCount w l := by
  unfold winCount RateLimiter.prune
  rw [List.filter_filter]
  apply congrArg List.length
  apply List.filter_congr
  intro x _
  by_cases h1 : w - 1 < x <;> by_cases h2 : x ≤ w
  · have h3 : t - x < 1 := by linarith
    simp [h1, h2, h3]
  · simp [h1, h2]
  · simp [h1, h2]
  · simp [h1, h2]

/-- Helper: the state component of `wait_if_needed`. -/
theorem wait_fst (s : RateLimiter) (now : ℚ) :
    (s.wait_if_needed now).1
      = ⟨s.max_rps, RateLimiter.prune now s.requests ++ [now]⟩ := rfl

/-- Helper: the return-time component of `wait_if_needed`. -/
theorem wait_snd (s : RateLimiter) (now : ℚ) :
    (s.wait_if_needed now).2
      = (if s.max_rps ≤ (RateLimiter.prune now s.requests).length then
           match RateLimiter.prune now s.requests with
           | [] => now
           | t0 :: _ => if 0 < 1 - (now - t0) then now + (1 - (now - t0)) else now
         else now) := rfl

/-- Helper: one call of `wait_if_needed`, entered no earlier than the
invariant's bound, returns no earlier than it was entered and
re-establishes the invariant at its return time. -/
theorem wait_if_needed_step (m : Nat) (hm : 1 ≤ m) (s : RateLimiter) (r t : ℚ)
    (hrt : r ≤ t) (hinv : RateLimiter.Inv m s r) :
    t ≤ (s.wait_if_needed t).2 ∧
    RateLimiter.Inv m (s.wait_if_needed t).1 (s.wait_if_needed t).2 := by
  obtain ⟨hmax, hub, hcnt, hlen⟩ := hinv
  have hmem : ∀ x ∈ RateLimiter.prune t s.requests, t - 1 < x ∧ x ∈ s.requests := by
    intro x hx
    obtain ⟨h1, h2⟩ := List.mem_filter.mp hx
    have h3 : t - x < 1 := of_decide_eq_true h2
    exact ⟨by linarith, h1⟩
  have hPlen : (RateLimiter.prune t s.requests).length ≤ m := by
    have hmono : (RateLimiter.prune t s.requests).length
        ≤ (s.requests.filter fun x => decide (r - 1 < x)).length := by
      apply length_filter_mono
      intro x _ hd
      have h1 : t - x < 1 := of_decide_eq_true hd
      exact decide_eq_true (show r - 1 < x by linarith)
    exact le_trans hmono hcnt
  by_cases hcond : s.max_rps ≤ (RateLimiter.prune t s.requests).length
  · -- at least max_rps survivors: the call sleeps until oldest + 1
    have hPm : (RateLimiter.prune t s.requests).length = m :=
      le_antisymm hPlen (hmax ▸ hcond)
    rcases hPexp : RateLimiter.prune t s.requests with _ | ⟨t0, tl⟩
    · rw [hPexp] at hPm
      simp at hPm
      omega
    · rw [hPexp] at hPm hcond
      have ht0 : t - 1 < t0 ∧ t0 ∈ s.requests := by
        have := hmem t0
        rw [hPexp] at this
        exact this (List.mem_cons_self t0 tl)
      have hpos : 0 < 1 - (t - t0) := by linarith [ht0.1]
      have hsnd : (s.wait_if_needed t).2 = t + (1 - (t - t0)) := by
        rw [wait_snd s t, hPexp, if_pos hcond]
        dsimp only
        rw [if_pos hpos]
      have htret : t ≤ (s.wait_if_needed t).2 := by rw [hsnd]; linarith
      have hret1 : (s.wait_if_needed t).2 - 1 = t0 := by rw [hsnd]; ring
      refine ⟨htret, hmax, ?_, ?_, ?_⟩
      · -- upper bound on recorded timestamps
        intro x hx
        rw [wait_fst] at hx
        rcases List.mem_append.mp hx with h | h
        · have hx2 := (hmem x h).2
          have := hub x hx2
          linarith
        · have : x = t := List.mem_singleton.mp h
          rw [this]; exact htret
      · -- at most m timestamps survive pruning at the return time
        show countRecent (s.wait_if_needed t).2 ((s.wait_if_needed t).1).requests ≤ m
        rw [wait_fst]
        unfold countRecent
        simp only [hret1, hPexp]
        rw [List.filter_append, List.length_append]
        have hhead : List.filter (fun x => decide (t0 < x)) (t0 :: tl)
            = List.filter (fun x => decide (t0 < x)) tl := by
          rw [List.filter_cons_of_neg]
          simp
        rw [hhead]
        have h1 : (List.filter (fun x => decide (t0 < x)) tl).length ≤ tl.length :=
          List.length_filter_le _ _
        have h2 : (List.filter (fun x => decide (t0 < x)) [t]).length ≤ 1 :=
          List.length_filter_le _ _
        simp only [List.length_cons] at hPm
        omega
      · -- at most m + 1 timestamps recorded
        show ((s.wait_if_needed t).1).requests.length ≤ m + 1
        rw [wait_fst]
        simp only [List.length_append, List.length_cons, hPexp]
        simp only [List.length_cons] at hPm
        simp
        omega
  · -- fewer than max_rps survivors: no sleep, return immediately
    have hsnd : (s.wait_if_needed t).2 = t := by rw [wait_snd s t, if_neg hcond]
    have hPlt : (RateLimiter.prune t s.requests).length < m := by
      rw [hmax] at hcond
      omega
    refine ⟨le_of_eq hsnd.symm, hmax, ?_, ?_, ?_⟩
    · intro x hx
      rw [wait_fst] at hx
      rw [hsnd]
      rcases List.mem_append.mp hx with h | h
      · have hx2 := (hmem x h).2
        have := hub x hx2
        linarith
      · rw [List.mem_singleton.mp h]
    · show countRecent (s.wait_if_needed t).2 ((s.wait_if_needed t).1).requests ≤ m
      rw [wait_fst, hsnd]
      unfold countRecent
      rw [List.filter_append, List.length_append]
      have hkeep : List.filter (fun x => decide (t - 1 < x)) (RateLimiter.prune t s.requests)
          = RateLimiter.prune t s.requests := by
        rw [List.filter_eq_self]
        intro x hx
        exact decide_eq_true (hmem x hx).1
      have hsing : List.filter (fun x => decide (t - 1 < x)) [t] = [t] := by
        rw [List.filter_eq_self]
        intro x hx
        rw [List.mem_singleton.mp hx]
        exact decide_eq_true (by linarith)
      rw [hkeep, hsing]
      simp only [List.length_cons, List.length_nil]
      omega
    · show ((s.wait_if_needed t).1).requests.length ≤ m + 1
      rw [wait_fst]
      simp only [List.length_append, List.length_cons, List.length_nil]
      omega

/-- Helper: along any back-to-back run whose state satisfies the
invariant, all recorded timestamps are at least the start bound, and
every trailing 1-second window holds at most `max_rps + 1` timestamps,
counting those already in the state. -/
theorem run_window_invariant (m : Nat) (hm : 1 ≤ m) (gaps : List ℚ) :
    ∀ (s : RateLimiter) (r : ℚ),
      (∀ g ∈ gaps, 0 ≤ g) → RateLimiter.Inv m s r →
      (∀ x ∈ (RateLimiter.run s r gaps).2, r ≤ x) ∧
      (∀ w, winCount w (RateLimiter.run s r gaps).2 + winCount w s.requests ≤ m + 1) := by
  induction gaps with
  | nil =>
    intro s r _ hinv
    constructor
    · intro x hx
      simp [RateLimiter.run] at hx
    · intro w
      have h1 : winCount w (RateLimiter.run s r []).2 = 0 := rfl
      have h2 := le_trans (winCount_le_length w s.requests) hinv.2.2.2
      omega
  | cons g gs ih =>
    intro s r hg hinv
    have hg0 : 0 ≤ g := hg g (List.mem_cons_self g gs)
    have hgs : ∀ x ∈ gs, 0 ≤ x := fun x hx => hg x (List.mem_cons_of_mem _ hx)
    have hrt : r ≤ r + g := by linarith
    obtain ⟨hts, hinvNext⟩ := wait_if_needed_step m hm s r (r + g) hrt hinv
    obtain ⟨ihlb, ihw⟩ :=
      ih (s.wait_if_needed (r + g)).1 (s.wait_if_needed (r + g)).2 hgs hinvNext
    have hrun : (RateLimiter.run s r (g :: gs)).2
        = (r + g) :: (RateLimiter.run (s.wait_if_needed (r + g)).1
            (s.wait_if_needed (r + g)).2 gs).2 := rfl
    constructor
    · intro x hx
      rw [hrun] at hx
      rcases List.mem_cons.mp hx with h | h
      · rw [h]; exact hrt
      · have := ihlb x h
        linarith
    · intro w
      rw [hrun]
      have hcons : winCount w ((r + g) :: (RateLimiter.run (s.wait_if_needed (r + g)).1
              (s.wait_if_needed (r + g)).2 gs).2)
          = winCount w [r + g] + winCount w (RateLimiter.run (s.wait_if_needed (r + g)).1
              (s.wait_if_needed (r + g)).2 gs).2 :=
        winCount_append w [r + g] _
      by_cases hwt : r + g ≤ w
      · -- the call time is not past the window: pruning preserves the count
        have hpr : winCount w s.requests
            = winCount w (RateLimiter.prune (r + g) s.requests) :=
          (winCount_prune w (r + g) s.requests hwt).symm
        have hIH := ihw w
        have hnew : winCount w ((s.wait_if_needed (r + g)).1).requests
            = winCount w (RateLimiter.prune (r + g) s.requests) + winCount w [r + g] := by
          rw [wait_fst]
          exact winCount_append w _ _
        rw [hnew] at hIH
        omega
      · -- the whole suffix of the history lies beyond the window
        push_neg at hwt
        have hzero : winCount w ((r + g) :: (RateLimiter.run (s.wait_if_needed (r + g)).1
                (s.wait_if_needed (r + g)).2 gs).2) = 0 := by
          apply winCount_eq_zero_of_gt
          intro x hx
          rcases List.mem_cons.mp hx with h | h
          · rw [h]; exact hwt
          · have := ihlb x h
            linarith
        have h2 := le_trans (winCount_le_length w s.requests) hinv.2.2.2
        omega

/-- C1 counterexample: with `max_rps = 1`, two back-to-back calls both
entered at time 0 (the second immediately after the first returns)
record the timestamps `[0, 0]`: the trailing 1-second window ending at
0 holds 2 recorded issue timestamps, exceeding `max_rps` — the source
appends the clock reading taken BEFORE its sleep. -/
theorem rate_limiter_exceeds_max_rps_window :
    (∀ g ∈ ([0, 0] : List ℚ), 0 ≤ g) ∧
    winCount 0 (RateLimiter.run ⟨1, []⟩ 0 [0, 0]).2 = 2 ∧
    ¬ winCount 0 (RateLimiter.run ⟨1, []⟩ 0 [0, 0]).2 ≤ 1 := by
  have hval : winCount 0 (RateLimiter.run ⟨1, []⟩ 0 [0, 0]).2 = 2 := by
    norm_num [RateLimiter.run, RateLimiter.wait_if_needed, RateLimiter.prune,
      winCount, List.filter]
  refine ⟨by norm_num, hval, ?_⟩
  rw [hval]
  omega

/-- C1 (amended): for every back-to-back single-threaded sequence of
calls to `wait_if_needed` on one instance with `max_rps ≥ 1`, every
trailing 1-second window holds at most `max_rps + 1` recorded issue
timestamps (the claimed bound `max_rps` fails, because the timestamp
appended after a sleep is the stale pre-sleep clock reading). -/
theorem rate_limiter_window_bound_amended (m : Nat) (gaps : List ℚ) (r0 w : ℚ)
    (hm : 1 ≤ m) (hg : ∀ g ∈ gaps, 0 ≤ g) :
    winCount w (RateLimiter.run ⟨m, []⟩ r0 gaps).2 ≤ m + 1 := by
  have hinv : RateLimiter.Inv m ⟨m, []⟩ r0 := by
    refine ⟨rfl, ?_, ?_, ?_⟩
    · intro x hx
      simp at hx
    · simp [countRecent]
    · simp
  have h := (run_window_invariant m hm gaps ⟨m, []⟩ r0 hg hinv).2 w
  have h0 : winCount w ([] : List ℚ) = 0 := rfl
  omega

/-- Witness for C1 (amended): one call at time 0 with `max_rps = 1`
records one timestamp in the window ending at 0, within the bound 2. -/
theorem rate_limiter_window_bound_amended_witness :
    (1 ≤ 1 ∧ ∀ g ∈ ([0] : List ℚ), 0 ≤ g) ∧
    winCount 0 (RateLimiter.run ⟨1, []⟩ 0 [0]).2 ≤ 1 + 1 :=
  ⟨⟨le_refl 1, by norm_num⟩,
   rate_limiter_window_bound_amended 1 [0] 0 0 (le_refl 1) (by norm_num)⟩
